import Mathlib

/-!
Verification of the core algorithms of the AzurePricingMCP server
(`src/azure_pricing_mcp/server.py`), shallowly embedded in Lean 4.

Python strings are modelled as Lean `String` (a list of characters);
Python floats that carry prices are modelled as `ℚ`; Python `round(x, n)`
is modelled by `pyRound` (round half to even, as CPython does);
Python dicts with a known field set are modelled as structures with
`Option` fields (a `none` field corresponds to an absent key).
Network calls are modelled by passing the upstream response data
(or a response oracle) as an explicit argument.
-/

/-! ## Python string primitives -/

/-- Character-list prefix test (`needle` is a prefix of `hay`). -/
def isPrefixOfChars : List Char → List Char → Bool
  | [], _ => true
  | _ :: _, [] => false
  | a :: as, b :: bs => a = b && isPrefixOfChars as bs

/-- Character-list substring test, mirroring Python `needle in hay`. -/
def isInfixChars (n : List Char) : List Char → Bool
  | [] => n.isEmpty
  | b :: bs => isPrefixOfChars n (b :: bs) || isInfixChars n bs

/-- Python `needle in hay` on strings (substring containment). -/
def pyIn (needle hay : String) : Bool :=
  isInfixChars needle.data hay.data

/-- Python `s.startswith(pre)`. -/
def pyStartsWith (s pre : String) : Bool :=
  isPrefixOfChars pre.data s.data

/-- Python `s[n:]` for nonnegative `n` (drop the first `n` characters). -/
def pyDrop (s : String) (n : ℕ) : String :=
  String.mk (s.data.drop n)

/-- Python `len(s)` (number of characters). -/
def pyLen (s : String) : ℕ :=
  s.data.length

/-- Python single-character `s.replace(a, b)`. -/
def charReplace (a b : Char) (s : String) : String :=
  String.mk (s.data.map (fun c => if c = a then b else c))

/-- Python `s.strip()`: remove leading and trailing whitespace. -/
def pyStrip (s : String) : String :=
  String.mk (((s.data.dropWhile Char.isWhitespace).reverse.dropWhile
    Char.isWhitespace).reverse)

/-- Python `s.lower()` (adequate for the ASCII service names involved). -/
def pyLower (s : String) : String :=
  String.mk (s.data.map Char.toLower)

/-- Helper for `pySplitWs`: split a character list on whitespace runs. -/
def splitWsChars : List Char → List Char → List String
  | [], cur => if cur.isEmpty then [] else [String.mk cur.reverse]
  | c :: rest, cur =>
    if c.isWhitespace then
      if cur.isEmpty then splitWsChars rest []
      else String.mk cur.reverse :: splitWsChars rest []
    else splitWsChars rest (c :: cur)

/-- Python `s.split()`: split on whitespace runs, no empty pieces. -/
def pySplitWs (s : String) : List String :=
  splitWsChars s.data []

/-! ## Python `round` on rationals -/

/-- Round a rational to the nearest integer, ties to even
(CPython `round` tie-breaking). -/
def pyRoundInt (q : ℚ) : ℤ :=
  let f := ⌊q⌋
  let frac := q - f
  if frac < 1/2 then f
  else if frac > 1/2 then f + 1
  else if f % 2 = 0 then f else f + 1

/-- Python `round(q, nd)` for nonnegative `nd`. -/
def pyRound (nd : ℕ) (q : ℚ) : ℚ :=
  (pyRoundInt (q * 10 ^ nd) : ℚ) / 10 ^ nd

/-! ## SKU name normalization (`normalize_sku_name`, server.py lines 81-136) -/

/-- The literal list `prefixes_to_remove` of `normalize_sku_name`. -/
def prefixesToRemove : List String :=
  ["Standard_", "Basic_", "standard_", "basic_"]

/-- The prefix-stripping loop of `normalize_sku_name`: remove the first
matching entry of `prefixesToRemove` (Python `for ... break`). -/
def stripTierToken (s : String) : String :=
  match prefixesToRemove.find? (fun p => pyStartsWith s p) with
  | some p => pyDrop s (pyLen p)
  | none => s

/-- Embedding of `normalize_sku_name` (server.py lines 81-136).
Returns `(search_terms, display_name)`. -/
def normalize_sku_name (sku_name : String) : List String × String :=
  if sku_name = "" then ([], "")
  else
    let original := pyStrip sku_name
    let normalized := stripTierToken original
    let display_name := charReplace '_' ' ' normalized
    let underscore_variant := charReplace ' ' '_' normalized
    let st1 : List String := if ([] : List String).contains underscore_variant
      then [] else [underscore_variant]
    let space_variant := charReplace '_' ' ' normalized
    let st2 := if st1.contains space_variant then st1 else st1 ++ [space_variant]
    let st3 := if st2.contains normalized then st2 else st2 ++ [normalized]
    (st3, display_name)

/-! ## Spec-side rendering of the (amended) normalization claim -/

/-- Keep the first occurrence of each string, in order (`seen` accumulator). -/
def dedupFirstAux : List String → List String → List String
  | _, [] => []
  | seen, x :: xs =>
    if seen.contains x then dedupFirstAux seen xs
    else x :: dedupFirstAux (x :: seen) xs

/-- Deduplicate a list of strings keeping first occurrences, in order. -/
def dedupFirst (l : List String) : List String :=
  dedupFirstAux [] l

/-- Modelled from the amended claim wording: after trimming, strip a leading
prefix exactly when the string starts with one of the four literal forms
`Standard_`, `Basic_`, `standard_`, `basic_` (first match of that list);
display name replaces underscores by spaces; the variants are the
deduplicated sequence underscore-form, space-form, stripped original. -/
def spec_normalize_amended (sku_name : String) : List String × String :=
  if sku_name = "" then ([], "")
  else
    let t := pyStrip sku_name
    let stripped :=
      if pyStartsWith t "Standard_" then pyDrop t 9
      else if pyStartsWith t "Basic_" then pyDrop t 6
      else if pyStartsWith t "standard_" then pyDrop t 9
      else if pyStartsWith t "basic_" then pyDrop t 6
      else t
    let disp := charReplace '_' ' ' stripped
    (dedupFirst [charReplace ' ' '_' stripped, disp, stripped], disp)

theorem stripTierToken_eq (t : String) :
    stripTierToken t =
      (if pyStartsWith t "Standard_" then pyDrop t 9
       else if pyStartsWith t "Basic_" then pyDrop t 6
       else if pyStartsWith t "standard_" then pyDrop t 9
       else if pyStartsWith t "basic_" then pyDrop t 6
       else t) := by
  have e1 : pyLen "Standard_" = 9 := by decide
  have e2 : pyLen "Basic_" = 6 := by decide
  have e3 : pyLen "standard_" = 9 := by decide
  have e4 : pyLen "basic_" = 6 := by decide
  unfold stripTierToken prefixesToRemove
  cases h1 : pyStartsWith t "Standard_" <;>
    cases h2 : pyStartsWith t "Basic_" <;>
      cases h3 : pyStartsWith t "standard_" <;>
        cases h4 : pyStartsWith t "basic_" <;>
          simp [List.find?, h1, h2, h3, h4, e1, e2, e3, e4]

theorem dedupFirst_three (u sp n : String) :
    (let st1 : List String := if ([] : List String).contains u then [] else [u]
     let st2 := if st1.contains sp then st1 else st1 ++ [sp]
     if st2.contains n then st2 else st2 ++ [n])
    = dedupFirst [u, sp, n] := by
  by_cases h1 : sp = u <;> by_cases h2 : n = u <;> by_cases h3 : n = sp <;>
    simp [dedupFirst, dedupFirstAux, List.contains, h1, h2, h3]

theorem normalize_sku_name_eq_spec (s : String) :
    normalize_sku_name s = spec_normalize_amended s := by
  unfold normalize_sku_name spec_normalize_amended
  by_cases h : s = ""
  · simp [h]
  · simp only [h, if_false]
    rw [stripTierToken_eq, Prod.mk.injEq]
    exact ⟨dedupFirst_three _ _ _, rfl⟩

/-- C6: SKU normalization strips a leading `Standard_`/`Basic_` prefix
case-insensitively. COUNTEREXAMPLE: the input `STANDARD_D4s_v5` starts with
the prefix token `Standard_` up to case, yet `normalize_sku_name` keeps it:
the display name is `STANDARD D4s v5`, not the prefix-stripped `D4s v5`, and
the variants keep the prefix as well. -/
theorem C6_counterexample :
    pyStartsWith (pyLower "STANDARD_D4s_v5") (pyLower "Standard_") = true
    ∧ (normalize_sku_name "STANDARD_D4s_v5").2 = "STANDARD D4s v5"
    ∧ (normalize_sku_name "STANDARD_D4s_v5").1
        = ["STANDARD_D4s_v5", "STANDARD D4s v5"]
    ∧ ("STANDARD D4s v5" : String) ≠ "D4s v5" := by
  refine ⟨by decide, by decide, by decide, by decide⟩

/-- C6 (amended): after trimming, a leading prefix is stripped exactly when
the string starts with one of the literal forms `Standard_`, `Basic_`,
`standard_`, `basic_` (not fully case-insensitively); the display name is the
prefix-stripped string with underscores replaced by spaces; the search-term
variants are, in order and with duplicates skipped, the underscore-joined
form, the space-joined form, then the prefix-stripped original.
`normalize_sku_name "Standard_D4s_v5"` returns variants
`["D4s_v5", "D4s v5"]` with display name `"D4s v5"`, and the empty input
returns no variants and an empty display name. -/
theorem C6_sku_normalization :
    (∀ s : String, normalize_sku_name s = spec_normalize_amended s)
    ∧ normalize_sku_name "Standard_D4s_v5" = (["D4s_v5", "D4s v5"], "D4s v5")
    ∧ normalize_sku_name "" = ([], "") :=
  ⟨normalize_sku_name_eq_spec, by decide, by decide⟩

/-! ## Price records and discount application
(`_apply_discount_to_items`, server.py lines 346-378) -/

/-- One entry of an item's `savingsPlan` list. -/
structure SavingsPlanRecord where
  term : Option String := none
  retailPrice : Option ℚ := none
  originalPrice : Option ℚ := none

/-- A price record as returned by the upstream catalog (`Items` entry).
`none` models an absent key of the Python dict. -/
structure PriceItem where
  serviceName : Option String := none
  productName : Option String := none
  skuName : Option String := none
  armSkuName : Option String := none
  armRegionName : Option String := none
  location : Option String := none
  meterName : Option String := none
  unitOfMeasure : Option String := none
  retailPrice : Option ℚ := none
  originalPrice : Option ℚ := none
  savingsPlan : Option (List SavingsPlanRecord) := none

/-- The savings-plan branch of `_apply_discount_to_items` applied to one
plan record (server.py lines 366-373). The Python guard
`"retailPrice" in plan and plan["retailPrice"]` is a presence plus
truthiness (nonzero) test. -/
def discountPlan (discount_percentage : ℚ) (plan : SavingsPlanRecord) :
    SavingsPlanRecord :=
  match plan.retailPrice with
  | some pr =>
    if pr ≠ 0 then
      { plan with
        retailPrice := some (pyRound 6 (pr * (1 - discount_percentage / 100)))
        originalPrice := some pr }
    else plan
  | none => plan

/-- The loop body of `_apply_discount_to_items` (server.py lines 353-376):
discount the item's own `retailPrice` (if present and nonzero), then each
entry of its `savingsPlan` list (if present and nonempty). -/
def discountItem (discount_percentage : ℚ) (item : PriceItem) : PriceItem :=
  let item1 :=
    match item.retailPrice with
    | some pr =>
      if pr ≠ 0 then
        { item with
          retailPrice := some (pyRound 6 (pr * (1 - discount_percentage / 100)))
          originalPrice := some pr }
      else item
    | none => item
  match item.savingsPlan with
  | some plans =>
    if plans.isEmpty then item1
    else { item1 with savingsPlan := some (plans.map (discountPlan discount_percentage)) }
  | none => item1

/-- Embedding of `_apply_discount_to_items` (server.py lines 346-378). -/
def apply_discount_to_items (items : List PriceItem) (discount_percentage : ℚ) :
    List PriceItem :=
  if items.isEmpty then []
  else items.map (discountItem discount_percentage)

/-- The call-site guard of discounting (server.py line 267 and others):
the discount is only applied when a percentage is supplied and is
strictly positive. -/
def applyDiscountIfRequested (items : List PriceItem)
    (discount_percentage : Option ℚ) : List PriceItem :=
  match discount_percentage with
  | some p => if 0 < p then apply_discount_to_items items p else items
  | none => items

/-- C3: discount application with percentage `p ∈ (0,100]`: on the data
model's well-formed records (`retailPrice ≥ 0` wherever present), every
record with `retailPrice > 0` gets `round(price * (1 - p/100), 6)` with the
untouched original stored alongside; every record whose `retailPrice` is
absent or `≤ 0` keeps its price fields unchanged; the same rule is applied
to each record's nested savings-plan records; the empty list yields the
empty list, and a requested discount of `0` (or no discount) is a no-op. -/
theorem C3_apply_discount (p : ℚ) (hp0 : 0 < p) (hp1 : p ≤ 100)
    (items : List PriceItem)
    (hwf : ∀ it ∈ items, (∀ pr, it.retailPrice = some pr → 0 ≤ pr) ∧
      (∀ plans, it.savingsPlan = some plans →
        ∀ pl ∈ plans, ∀ pr, pl.retailPrice = some pr → 0 ≤ pr)) :
    (items ≠ [] → apply_discount_to_items items p = items.map (discountItem p))
    ∧ apply_discount_to_items [] p = []
    ∧ (∀ it ∈ items, ∀ pr, it.retailPrice = some pr → 0 < pr →
        (discountItem p it).retailPrice = some (pyRound 6 (pr * (1 - p / 100)))
        ∧ (discountItem p it).originalPrice = some pr)
    ∧ (∀ it ∈ items,
        (it.retailPrice = none ∨ ∀ pr, it.retailPrice = some pr → pr ≤ 0) →
        (discountItem p it).retailPrice = it.retailPrice
        ∧ (discountItem p it).originalPrice = it.originalPrice)
    ∧ (∀ it ∈ items, ∀ plans, it.savingsPlan = some plans → plans ≠ [] →
        (discountItem p it).savingsPlan = some (plans.map (discountPlan p))
        ∧ ∀ pl ∈ plans,
          (∀ pr, pl.retailPrice = some pr → 0 < pr →
            (discountPlan p pl).retailPrice
              = some (pyRound 6 (pr * (1 - p / 100)))
            ∧ (discountPlan p pl).originalPrice = some pr)
          ∧ ((pl.retailPrice = none ∨ ∀ pr, pl.retailPrice = some pr → pr ≤ 0) →
            discountPlan p pl = pl))
    ∧ applyDiscountIfRequested items (some 0) = items
    ∧ applyDiscountIfRequested items none = items := by
  refine ⟨?_, rfl, ?_, ?_, ?_, rfl, rfl⟩
  · intro hne
    unfold apply_discount_to_items
    simp [List.isEmpty_iff, hne]
  · intro it _ pr hpr hpos
    unfold discountItem
    rw [hpr]
    have hnz : pr ≠ 0 := ne_of_gt hpos
    simp only [hnz, if_true, ite_not]
    cases hsp : it.savingsPlan with
    | none => simp
    | some plans => cases plans <;> simp
  · intro it hmem hle
    have hz : it.retailPrice = none ∨ it.retailPrice = some 0 := by
      cases hpr : it.retailPrice with
      | none => exact Or.inl rfl
      | some pr =>
        right
        have h0 : 0 ≤ pr := (hwf it hmem).1 pr hpr
        rcases hle with h | h
        · rw [hpr] at h; exact absurd h (by simp)
        · have := h pr hpr
          have : pr = 0 := le_antisymm this h0
          rw [this]
    unfold discountItem
    rcases hz with h | h <;> rw [h] <;>
      cases hsp : it.savingsPlan with
      | none => simp [h]
      | some plans => cases plans <;> simp [h, hsp]
  · intro it hmem plans hplans hne
    constructor
    · unfold discountItem
      rw [hplans]
      have : plans.isEmpty = false := by
        cases plans with
        | nil => exact absurd rfl hne
        | cons a l => rfl
      cases hpr : it.retailPrice with
      | none => simp [this]
      | some pr =>
        by_cases hz : pr = 0 <;> simp [this, hz]
    · intro pl hpl
      constructor
      · intro pr hpr hpos
        unfold discountPlan
        rw [hpr]
        have hnz : pr ≠ 0 := ne_of_gt hpos
        simp [hnz]
      · intro hle
        have hz : pl.retailPrice = none ∨ pl.retailPrice = some 0 := by
          cases hpr : pl.retailPrice with
          | none => exact Or.inl rfl
          | some pr =>
            right
            have h0 : 0 ≤ pr := (hwf it hmem).2 plans hplans pl hpl pr hpr
            rcases hle with h | h
            · rw [hpr] at h; exact absurd h (by simp)
            · have := h pr hpr
              have : pr = 0 := le_antisymm this h0
              rw [this]
        unfold discountPlan
        rcases hz with h | h <;> rw [h] <;> simp

/-- Witness for C3: the spec example `discount([{price: 100}], 20)` yields
price `80` with original `100` preserved, and discounting the empty list
yields the empty list. -/
theorem C3_witness :
    (discountItem 20 { retailPrice := some 100 }).retailPrice = some 80
    ∧ (discountItem 20 { retailPrice := some 100 }).originalPrice = some 100
    ∧ apply_discount_to_items [] 20 = [] := by
  have h := C3_apply_discount 20 (by norm_num) (by norm_num)
    [{ retailPrice := some 100 }]
    (by
      intro it hit
      simp only [List.mem_singleton] at hit
      subst hit
      refine ⟨?_, ?_⟩
      · intro pr hpr
        simp only [Option.some.injEq] at hpr
        simp [← hpr]
      · intro plans hplans
        simp at hplans)
  have h1 := h.2.2.1 { retailPrice := some 100 } (by simp) 100 rfl (by norm_num)
  have hr : pyRound 6 ((100 : ℚ) * (1 - 20 / 100)) = 80 := by
    norm_num [pyRound, pyRoundInt]
  refine ⟨?_, ?_, h.2.1⟩
  · rw [h1.1, hr]
  · exact h1.2

/-! ## Price search (`search_azure_prices`, server.py lines 207-286, and
`_validate_and_suggest_skus`, lines 288-344) -/

/-- Truthiness of an optional string (Python `if s:`). -/
def truthyStr : Option String → Bool
  | none => false
  | some s => s != ""

/-- One conditional filter condition (Python `if arg: conditions.append(...)`). -/
def condFilter (arg : Option String) (render : String → String) : List String :=
  match arg with
  | some s => if s != "" then [render s] else []
  | none => []

/-- The `filter_conditions` list built by `search_azure_prices`
(server.py lines 222-233), in source order. -/
def buildFilterConditions
    (service_name service_family region sku_name price_type : Option String) :
    List String :=
  condFilter service_name (fun s => "serviceName eq \x27" ++ s ++ "\x27")
    ++ condFilter service_family (fun s => "serviceFamily eq \x27" ++ s ++ "\x27")
    ++ condFilter region (fun s => "armRegionName eq \x27" ++ s ++ "\x27")
    ++ condFilter sku_name (fun s => "contains(skuName, \x27" ++ s ++ "\x27)")
    ++ condFilter price_type (fun s => "priceType eq \x27" ++ s ++ "\x27")

/-- A suggestion entry built by `_validate_and_suggest_skus`
(server.py lines 316-324). -/
structure SkuSuggestion where
  sku_name : String
  product_name : String
  price : ℚ
  unit : String
  region : String
deriving DecidableEq

/-- The `sku_validation` record (server.py lines 337-344). -/
structure SkuValidation where
  original_sku : String
  found : Bool
  message : String
  suggestions : List SkuSuggestion
deriving DecidableEq

/-- The `clarification` record (server.py lines 261-264). -/
structure Clarification where
  message : String
  suggestions : List String
deriving DecidableEq

/-- Result of `search_azure_prices` (server.py lines 270-286). -/
structure SearchResult where
  items : List PriceItem
  count : ℕ
  has_more : Bool
  currency : String
  filters_applied : List String
  sku_validation : Option SkuValidation := none
  clarification : Option Clarification := none
  discount_applied : Option ℚ := none

/-- The SKU fuzzy-match test of `_validate_and_suggest_skus`
(server.py lines 311-315): substring containment in either direction, or
some whitespace word of the query contained in the item SKU. -/
def skuMatchesQuery (sku_lower item_sku_lower : String) : Bool :=
  pyIn sku_lower item_sku_lower || pyIn item_sku_lower sku_lower
    || (pySplitWs sku_lower).any (fun word => pyIn word item_sku_lower)

/-- The suggestion-collection loop of `_validate_and_suggest_skus`
(server.py lines 303-324): items without a truthy SKU name are skipped. -/
def collectSuggestions (broadItems : List PriceItem) (sku_name : String) :
    List SkuSuggestion :=
  let sku_lower := pyLower sku_name
  broadItems.filterMap fun item =>
    match item.skuName with
    | none => none
    | some item_sku =>
      if item_sku = "" then none
      else if skuMatchesQuery sku_lower (pyLower item_sku) then
        some { sku_name := item_sku
               product_name := item.productName.getD "Unknown"
               price := item.retailPrice.getD 0
               unit := item.unitOfMeasure.getD "Unknown"
               region := item.armRegionName.getD "Unknown" }
      else none

/-- The dedup-and-cap loop of `_validate_and_suggest_skus`
(server.py lines 326-335): keep the first suggestion per SKU name and stop
right after the fifth kept one. -/
def uniqueSuggestionsAux :
    List SkuSuggestion → List String → List SkuSuggestion → List SkuSuggestion
  | [], _, acc => acc.reverse
  | s :: rest, seen, acc =>
    if seen.contains s.sku_name then uniqueSuggestionsAux rest seen acc
    else if 5 ≤ acc.length + 1 then (s :: acc).reverse
    else uniqueSuggestionsAux rest (s.sku_name :: seen) (s :: acc)

/-- Embedding of `_validate_and_suggest_skus` (server.py lines 288-344).
`broadItems` stands for the items returned by the broader secondary query
(same service, no SKU filter, limit 100) that the Python code performs. -/
def validate_and_suggest_skus (broadItems : List PriceItem)
    (service_name : Option String) (sku_name : String) : SkuValidation :=
  let suggestions :=
    if truthyStr service_name then collectSuggestions broadItems sku_name else []
  { original_sku := sku_name
    found := false
    message := "SKU \x27" ++ sku_name ++ "\x27 not found"
      ++ (match service_name with
          | some sn => if sn != "" then " in service \x27" ++ sn ++ "\x27" else ""
          | none => "")
    suggestions := uniqueSuggestionsAux suggestions [] [] }

/-- A truthy SKU name of an item (clarification list comprehension filter). -/
def truthySkuName (item : PriceItem) : Option String :=
  match item.skuName with
  | some s => if s = "" then none else some s
  | none => none

/-- The truncation step of `search_azure_prices` (server.py lines 251-253):
`if len(items) > limit: items = items[:limit]`. -/
def truncatedItems (upstreamItems : List PriceItem) (limit : ℕ) : List PriceItem :=
  if upstreamItems.length > limit then upstreamItems.take limit else upstreamItems

/-- Embedding of `search_azure_prices` (server.py lines 207-286).
`upstreamItems` and `hasNextPage` stand for the upstream response envelope
(`Items`, `NextPageLink`); `broadItems` stands for the items of the
secondary validation query (used only on the zero-result branch). -/
def search_azure_prices (upstreamItems : List PriceItem) (hasNextPage : Bool)
    (broadItems : List PriceItem)
    (service_name service_family region sku_name price_type : Option String)
    (currency_code : String) (limit : ℕ) (discount_percentage : Option ℚ)
    (validate_sku : Bool) : SearchResult :=
  let filter_conditions :=
    buildFilterConditions service_name service_family region sku_name price_type
  let items1 := truncatedItems upstreamItems limit
  let vinfo : Option SkuValidation × Option Clarification :=
    if validate_sku && truthyStr sku_name && items1.isEmpty then
      (some (validate_and_suggest_skus broadItems service_name
        (sku_name.getD "")), none)
    else if validate_sku && truthyStr sku_name && decide (10 < items1.length) then
      (none, some
        { message := "Found " ++ toString items1.length ++ " SKUs matching \x27"
            ++ sku_name.getD "" ++ "\x27. Consider being more specific."
          suggestions := (items1.take 5).filterMap truthySkuName })
    else (none, none)
  let items2 := applyDiscountIfRequested items1 discount_percentage
  { items := items2
    count := items2.length
    has_more := hasNextPage
    currency := currency_code
    filters_applied := filter_conditions
    sku_validation := vinfo.1
    clarification := vinfo.2
    discount_applied :=
      match discount_percentage with
      | some p => if 0 < p then some p else none
      | none => none }

/-! ## Helper lemmas about truncation, discounting and deduplication -/

theorem truncatedItems_length_le (u : List PriceItem) (limit : ℕ) :
    (truncatedItems u limit).length ≤ limit := by
  unfold truncatedItems
  by_cases h : u.length > limit
  · simp [h]
  · simp [h]; omega

theorem discountItem_skuName (p : ℚ) (it : PriceItem) :
    (discountItem p it).skuName = it.skuName := by
  unfold discountItem
  cases hpr : it.retailPrice <;> cases hsp : it.savingsPlan <;>
    simp only [hpr, hsp] <;> (try split_ifs) <;> rfl

theorem apply_discount_to_items_length (items : List PriceItem) (p : ℚ) :
    (apply_discount_to_items items p).length = items.length := by
  unfold apply_discount_to_items
  cases items <;> simp

theorem applyDiscountIfRequested_length (items : List PriceItem)
    (dp : Option ℚ) :
    (applyDiscountIfRequested items dp).length = items.length := by
  cases dp with
  | none => rfl
  | some p =>
    unfold applyDiscountIfRequested
    by_cases h : 0 < p <;> simp [h, apply_discount_to_items_length]

theorem apply_discount_to_items_map_skuName (items : List PriceItem) (p : ℚ) :
    (apply_discount_to_items items p).map (fun it => it.skuName)
      = items.map (fun it => it.skuName) := by
  unfold apply_discount_to_items
  cases items with
  | nil => simp
  | cons a l =>
    simp only [List.isEmpty_cons, if_false, List.map_map, Bool.false_eq_true]
    exact List.map_congr_left (fun it _ => discountItem_skuName p it)

theorem uniqueSuggestionsAux_sublist (l : List SkuSuggestion) :
    ∀ (seen : List String) (acc : List SkuSuggestion),
      List.Sublist (uniqueSuggestionsAux l seen acc) (acc.reverse ++ l) := by
  induction l with
  | nil =>
    intro seen acc
    simp [uniqueSuggestionsAux]
  | cons s rest ih =>
    intro seen acc
    unfold uniqueSuggestionsAux
    by_cases hc : seen.contains s.sku_name
    · simp only [hc, if_true]
      exact (ih seen acc).trans
        (List.Sublist.append_left (List.sublist_cons_self s rest) acc.reverse)
    · simp only [hc, if_false, Bool.false_eq_true]
      by_cases hl : 5 ≤ acc.length + 1
      · simp only [hl, if_true]
        rw [List.reverse_cons]
        exact List.Sublist.append_left
          ((List.nil_sublist rest).cons₂ s) acc.reverse
      · simp only [hl, if_false]
        have := ih (s.sku_name :: seen) (s :: acc)
        rw [List.reverse_cons, List.append_assoc] at this
        simpa using this

theorem uniqueSuggestionsAux_length (l : List SkuSuggestion) :
    ∀ (seen : List String) (acc : List SkuSuggestion), acc.length ≤ 4 →
      (uniqueSuggestionsAux l seen acc).length ≤ 5 := by
  induction l with
  | nil =>
    intro seen acc h
    simp [uniqueSuggestionsAux]
    omega
  | cons s rest ih =>
    intro seen acc h
    unfold uniqueSuggestionsAux
    by_cases hc : seen.contains s.sku_name
    · simp only [hc, if_true]
      exact ih seen acc h
    · simp only [hc, if_false, Bool.false_eq_true]
      by_cases hl : 5 ≤ acc.length + 1
      · simp only [hl, if_true, List.length_reverse, List.length_cons]
        omega
      · simp only [hl, if_false]
        exact ih (s.sku_name :: seen) (s :: acc) (by simp; omega)

theorem uniqueSuggestionsAux_nodup (l : List SkuSuggestion) :
    ∀ (seen : List String) (acc : List SkuSuggestion),
      (acc.map (fun s => s.sku_name)).Nodup →
      (∀ a ∈ acc, a.sku_name ∈ seen) →
      ((uniqueSuggestionsAux l seen acc).map (fun s => s.sku_name)).Nodup := by
  induction l with
  | nil =>
    intro seen acc hnd _
    simpa [uniqueSuggestionsAux, List.map_reverse] using hnd
  | cons s rest ih =>
    intro seen acc hnd hsub
    unfold uniqueSuggestionsAux
    by_cases hc : seen.contains s.sku_name
    · simp only [hc, if_true]
      exact ih seen acc hnd hsub
    · have hnotseen : s.sku_name ∉ seen := by
        intro hmem
        exact hc (List.elem_eq_true_of_mem hmem)
      have hnotacc : s.sku_name ∉ acc.map (fun a => a.sku_name) := by
        intro hmem
        rcases List.mem_map.mp hmem with ⟨a, ha, heq⟩
        exact hnotseen (heq ▸ hsub a ha)
      simp only [hc, if_false, Bool.false_eq_true]
      by_cases hl : 5 ≤ acc.length + 1
      · simp only [hl, if_true, List.map_reverse, List.nodup_reverse]
        exact List.Nodup.cons hnotacc hnd
      · simp only [hl, if_false]
        refine ih (s.sku_name :: seen) (s :: acc)
          (List.Nodup.cons hnotacc hnd) ?_
        intro a ha
        rcases List.mem_cons.mp ha with h | h
        · simp [h]
        · simp [List.mem_cons, hsub a h]

/-- A sample item used in the C5 counterexample. -/
def c5Item : PriceItem := { skuName := some "D4s" }

/-- C5: the claim reads the clarification trigger as "strictly more than 10
raw results". COUNTEREXAMPLE: with caller limit 3 and 12 raw upstream items,
the code truncates to 3 items before the check, so no clarification (and no
validation) is surfaced although more than 10 raw results were returned with
a SKU filter present and validation enabled. -/
theorem C5_counterexample :
    10 < (List.replicate 12 c5Item).length
    ∧ truthyStr (some "D4s") = true
    ∧ (search_azure_prices (List.replicate 12 c5Item) false []
        (some "Virtual Machines") none none (some "D4s") none "USD" 3 none
        true).clarification = none
    ∧ (search_azure_prices (List.replicate 12 c5Item) false []
        (some "Virtual Machines") none none (some "D4s") none "USD" 3 none
        true).sku_validation = none := by
  refine ⟨by decide, by decide, by decide, by decide⟩

/-- C5 (amended): with validation enabled and a SKU-substring filter present,
the branch conditions are evaluated on the item list truncated to the
caller's limit, not on the raw result count: if the truncated list is empty,
a validation record with `found = false` and deduplicated, order-preserving
suggestions capped at 5 is surfaced; if the truncated list has strictly more
than 10 items, a clarification record whose suggestions are the truthy SKU
names of the first 5 items is surfaced instead; validation and clarification
never co-occur. -/
theorem C5_search_validation_clarification
    (upstream : List PriceItem) (hasNext : Bool) (broad : List PriceItem)
    (sn sf rg skq pt : Option String) (cur : String) (limit : ℕ)
    (dp : Option ℚ) (hsku : truthyStr skq = true) :
    (truncatedItems upstream limit = [] →
      (search_azure_prices upstream hasNext broad sn sf rg skq pt cur limit dp
          true).clarification = none
      ∧ (search_azure_prices upstream hasNext broad sn sf rg skq pt cur limit
          dp true).sku_validation
          = some (validate_and_suggest_skus broad sn (skq.getD ""))
      ∧ (validate_and_suggest_skus broad sn (skq.getD "")).found = false
      ∧ List.Sublist
          (validate_and_suggest_skus broad sn (skq.getD "")).suggestions
          (if truthyStr sn then collectSuggestions broad (skq.getD "") else [])
      ∧ (validate_and_suggest_skus broad sn (skq.getD "")).suggestions.length
          ≤ 5
      ∧ ((validate_and_suggest_skus broad sn (skq.getD "")).suggestions.map
          (fun s => s.sku_name)).Nodup)
    ∧ (10 < (truncatedItems upstream limit).length →
      (search_azure_prices upstream hasNext broad sn sf rg skq pt cur limit dp
          true).sku_validation = none
      ∧ ∃ c, (search_azure_prices upstream hasNext broad sn sf rg skq pt cur
            limit dp true).clarification = some c
          ∧ c.suggestions
            = ((truncatedItems upstream limit).take 5).filterMap truthySkuName)
    ∧ ¬((search_azure_prices upstream hasNext broad sn sf rg skq pt cur limit
          dp true).sku_validation.isSome = true
        ∧ (search_azure_prices upstream hasNext broad sn sf rg skq pt cur
          limit dp true).clarification.isSome = true) := by
  have hsubl : List.Sublist
      (validate_and_suggest_skus broad sn (skq.getD "")).suggestions
      (if truthyStr sn then collectSuggestions broad (skq.getD "") else []) := by
    simpa [validate_and_suggest_skus] using uniqueSuggestionsAux_sublist
      (if truthyStr sn then collectSuggestions broad (skq.getD "") else []) [] []
  have hlen : (validate_and_suggest_skus broad sn
      (skq.getD "")).suggestions.length ≤ 5 := by
    simpa [validate_and_suggest_skus] using uniqueSuggestionsAux_length
      (if truthyStr sn then collectSuggestions broad (skq.getD "") else []) [] []
      (by simp)
  have hnodup : ((validate_and_suggest_skus broad sn
      (skq.getD "")).suggestions.map (fun s => s.sku_name)).Nodup := by
    simpa [validate_and_suggest_skus] using uniqueSuggestionsAux_nodup
      (if truthyStr sn then collectSuggestions broad (skq.getD "") else []) [] []
      (by simp) (by simp)
  refine ⟨?_, ?_, ?_⟩
  · intro hemp
    have he : (truncatedItems upstream limit).isEmpty = true := by simp [hemp]
    refine ⟨?_, ?_, rfl, hsubl, hlen, hnodup⟩ <;>
      simp [search_azure_prices, hsku, he]
  · intro h10
    have hne : truncatedItems upstream limit ≠ [] := by
      intro h
      rw [h] at h10
      simp at h10
    have he : (truncatedItems upstream limit).isEmpty = false := by
      simpa [List.isEmpty_iff] using hne
    have hd : decide (10 < (truncatedItems upstream limit).length) = true :=
      decide_eq_true h10
    refine ⟨?_, ?_⟩
    · simp [search_azure_prices, hsku, he, hd]
    · have hc : (search_azure_prices upstream hasNext broad sn sf rg skq pt
          cur limit dp true).clarification
          = some
            { message := "Found "
                ++ toString (truncatedItems upstream limit).length
                ++ " SKUs matching \x27" ++ skq.getD ""
                ++ "\x27. Consider being more specific.",
              suggestions :=
                ((truncatedItems upstream limit).take 5).filterMap
                  truthySkuName } := by
        simp [search_azure_prices, hsku, he, hd]
      exact ⟨_, hc, rfl⟩
  · by_cases h1 : (truncatedItems upstream limit).isEmpty = true
    · simp [search_azure_prices, hsku, h1]
    · by_cases h2 : decide (10 < (truncatedItems upstream limit).length) = true
      · simp [search_azure_prices, hsku, h1, h2]
      · simp [search_azure_prices, hsku, h1, h2]

/-- Witness for C5: an empty truncated result with a SKU filter surfaces the
validation record (with `found = false`) and no clarification. -/
theorem C5_witness :
    (search_azure_prices [] false [] none none none (some "D4s") none "USD" 50
        none true).sku_validation
      = some (validate_and_suggest_skus [] none "D4s")
    ∧ (search_azure_prices [] false [] none none none (some "D4s") none "USD"
        50 none true).clarification = none
    ∧ (validate_and_suggest_skus [] none "D4s").found = false := by
  have h := C5_search_validation_clarification [] false [] none none none
    (some "D4s") none "USD" 50 none (by decide)
  have h1 := h.1 rfl
  exact ⟨h1.2.1, h1.1, h1.2.2.1⟩

/-- C9: when a strictly positive discount is requested, the search result's
items are exactly the discount transformation of the truncated item list
(the final processing step), and discounting never removes items nor changes
their order: the length and the SKU-name sequence are preserved. -/
theorem C9_discount_preserves_items
    (upstream : List PriceItem) (hasNext : Bool) (broad : List PriceItem)
    (sn sf rg skq pt : Option String) (cur : String) (limit : ℕ) (vs : Bool)
    (p : ℚ) (hp : 0 < p) :
    (search_azure_prices upstream hasNext broad sn sf rg skq pt cur limit
        (some p) vs).items
      = apply_discount_to_items (truncatedItems upstream limit) p
    ∧ (search_azure_prices upstream hasNext broad sn sf rg skq pt cur limit
        (some p) vs).items.length
      = (truncatedItems upstream limit).length
    ∧ (search_azure_prices upstream hasNext broad sn sf rg skq pt cur limit
        (some p) vs).items.map (fun it => it.skuName)
      = (truncatedItems upstream limit).map (fun it => it.skuName) := by
  have h1 : (search_azure_prices upstream hasNext broad sn sf rg skq pt cur
      limit (some p) vs).items
      = apply_discount_to_items (truncatedItems upstream limit) p := by
    simp [search_azure_prices, applyDiscountIfRequested, hp]
  refine ⟨h1, ?_, ?_⟩
  · rw [h1, apply_discount_to_items_length]
  · rw [h1, apply_discount_to_items_map_skuName]

/-- Witness for C9: a one-item search with a 20% discount keeps the single
item and its SKU name in place. -/
theorem C9_witness :
    (0 : ℚ) < 20
    ∧ (search_azure_prices [{ skuName := some "A", retailPrice := some 100 }]
        false [] none none none none none "USD" 50 (some 20) false).items.map
        (fun it => it.skuName) = [some "A"]
    ∧ (search_azure_prices [{ skuName := some "A", retailPrice := some 100 }]
        false [] none none none none none "USD" 50 (some 20)
        false).items.length = 1 := by
  have h := C9_discount_preserves_items
    [{ skuName := some "A", retailPrice := some 100 }] false [] none none none
    none none "USD" 50 false 20 (by norm_num)
  refine ⟨by norm_num, ?_, ?_⟩
  · rw [h.2.2]; rfl
  · rw [h.2.1]; rfl

theorem condFilter_length (arg : Option String) (render : String → String)
    (h : ∀ s, arg = some s → s ≠ "") :
    (condFilter arg render).length = if arg.isSome then 1 else 0 := by
  cases arg with
  | none => rfl
  | some s =>
    have hs := h s rfl
    simp [condFilter, hs]

/-- C10: for every search, the result's `count` equals the number of
returned items, never exceeds the caller's limit, and `filters_applied` has
exactly one condition per supplied (present, nonempty) filter argument —
the empty list when none is supplied. -/
theorem C10_search_result_invariants
    (upstream : List PriceItem) (hasNext : Bool) (broad : List PriceItem)
    (sn sf rg skq pt : Option String) (cur : String) (limit : ℕ)
    (dp : Option ℚ) (vs : Bool)
    (hsn : ∀ s, sn = some s → s ≠ "") (hsf : ∀ s, sf = some s → s ≠ "")
    (hrg : ∀ s, rg = some s → s ≠ "") (hsk : ∀ s, skq = some s → s ≠ "")
    (hpt : ∀ s, pt = some s → s ≠ "") :
    (search_azure_prices upstream hasNext broad sn sf rg skq pt cur limit dp
        vs).count
      = (search_azure_prices upstream hasNext broad sn sf rg skq pt cur limit
        dp vs).items.length
    ∧ (search_azure_prices upstream hasNext broad sn sf rg skq pt cur limit dp
        vs).count ≤ limit
    ∧ (search_azure_prices upstream hasNext broad sn sf rg skq pt cur limit dp
        vs).filters_applied.length
      = [sn, sf, rg, skq, pt].countP (fun o => o.isSome)
    ∧ (sn = none → sf = none → rg = none → skq = none → pt = none →
      (search_azure_prices upstream hasNext broad sn sf rg skq pt cur limit dp
        vs).filters_applied = []) := by
  refine ⟨rfl, ?_, ?_, ?_⟩
  · have hc : (search_azure_prices upstream hasNext broad sn sf rg skq pt cur
        limit dp vs).count = (truncatedItems upstream limit).length := by
      simp [search_azure_prices, applyDiscountIfRequested_length]
    rw [hc]
    exact truncatedItems_length_le upstream limit
  · have hfa : (search_azure_prices upstream hasNext broad sn sf rg skq pt cur
        limit dp vs).filters_applied = buildFilterConditions sn sf rg skq pt :=
      rfl
    rw [hfa]
    unfold buildFilterConditions
    simp only [List.length_append,
      condFilter_length sn _ hsn, condFilter_length sf _ hsf,
      condFilter_length rg _ hrg, condFilter_length skq _ hsk,
      condFilter_length pt _ hpt,
      List.countP_cons, List.countP_nil]
    cases sn <;> cases sf <;> cases rg <;> cases skq <;> cases pt <;> simp
  · intro h1 h2 h3 h4 h5
    subst h1; subst h2; subst h3; subst h4; subst h5
    rfl

/-- Witness for C10: a search supplying only the service-name filter has one
filter condition, and two upstream items against limit 3 give count 2. -/
theorem C10_witness :
    (search_azure_prices [{ skuName := some "A" }, { skuName := some "B" }]
        false [] (some "Virtual Machines") none none none none "USD" 3 none
        false).count = 2
    ∧ (search_azure_prices [{ skuName := some "A" }, { skuName := some "B" }]
        false [] (some "Virtual Machines") none none none none "USD" 3 none
        false).count ≤ 3
    ∧ (search_azure_prices [{ skuName := some "A" }, { skuName := some "B" }]
        false [] (some "Virtual Machines") none none none none "USD" 3 none
        false).filters_applied.length = 1 := by
  have h := C10_search_result_invariants
    [{ skuName := some "A" }, { skuName := some "B" }] false []
    (some "Virtual Machines") none none none none "USD" 3 none false
    (by intro s hs; injection hs with h2; subst h2; decide)
    (by intro s hs; cases hs) (by intro s hs; cases hs)
    (by intro s hs; cases hs) (by intro s hs; cases hs)
  refine ⟨?_, h.2.1, ?_⟩
  · rw [h.1]; rfl
  · rw [h.2.2.1]; rfl

/-! ## Catalog request retry policy (`_make_request`, server.py lines
155-205) -/

/-- Configured retry count (server.py line 27). -/
def MAX_RETRIES : ℕ := 3

/-- Configured linear-backoff base wait in seconds (server.py line 28). -/
def RATE_LIMIT_RETRY_BASE_WAIT : ℕ := 5

/-- One upstream response as observed by `_make_request`: a 2xx JSON payload
(abstracted to a numeric id), an HTTP 429, a non-429 HTTP error status, or a
network error. -/
inductive UpstreamResponse where
  | ok : ℕ → UpstreamResponse
  | rateLimited : UpstreamResponse
  | httpError : ℕ → UpstreamResponse
  | netError : ℕ → UpstreamResponse
deriving DecidableEq

/-- An error propagated by `_make_request`. -/
inductive RequestError where
  | http : ℕ → RequestError
  | net : ℕ → RequestError
deriving DecidableEq

/-- Observable outcome of `_make_request`: the returned payload or raised
error, the number of attempts made, and the backoff waits in seconds. -/
structure RequestTrace where
  result : Except RequestError ℕ
  attempts : ℕ
  waits : List ℕ

/-- How one response settles `_make_request` when no retry happens
(server.py lines 166-200): a 2xx returns its payload, any error status or
network failure is raised; for a 429 this is the final-attempt case, where
`response.raise_for_status()` raises the HTTP 429 error. -/
def settleTrace (resp : UpstreamResponse) (attempt : ℕ) : RequestTrace :=
  match resp with
  | .ok v => { result := .ok v, attempts := attempt + 1, waits := [] }
  | .httpError s =>
    { result := .error (.http s), attempts := attempt + 1, waits := [] }
  | .netError s =>
    { result := .error (.net s), attempts := attempt + 1, waits := [] }
  | .rateLimited =>
    { result := .error (.http 429), attempts := attempt + 1, waits := [] }

/-- The retry loop of `_make_request` (server.py lines 164-205). `responses`
gives the upstream response for each attempt index; `remaining` counts the
retries still allowed, so the code's `attempt < max_retries` test is
`remaining > 0` (the loop maintains `remaining = max_retries - attempt`).
On a 429 with retries left the loop sleeps `base * (attempt + 1)` seconds
and retries; otherwise the response settles the call immediately. -/
def makeRequestLoop (responses : ℕ → UpstreamResponse) :
    ℕ → ℕ → RequestTrace
  | 0, attempt => settleTrace (responses attempt) attempt
  | r + 1, attempt =>
    match responses attempt with
    | .rateLimited =>
      let t := makeRequestLoop responses r (attempt + 1)
      { result := t.result
        attempts := t.attempts
        waits := RATE_LIMIT_RETRY_BASE_WAIT * (attempt + 1) :: t.waits }
    | resp => settleTrace resp attempt

/-- Embedding of `_make_request` (server.py lines 155-205). -/
def make_request (responses : ℕ → UpstreamResponse) (max_retries : ℕ) :
    RequestTrace :=
  makeRequestLoop responses max_retries 0

/-- How a non-429 response settles the loop (`none` for a 429, which only
settles on the final attempt). -/
def settleResponse : UpstreamResponse → Option (Except RequestError ℕ)
  | .ok v => some (.ok v)
  | .httpError s => some (.error (.http s))
  | .netError s => some (.error (.net s))
  | .rateLimited => none

theorem makeRequestLoop_attempts_le (responses : ℕ → UpstreamResponse) :
    ∀ (remaining attempt : ℕ),
      (makeRequestLoop responses remaining attempt).attempts
        ≤ attempt + remaining + 1 := by
  intro remaining
  induction remaining with
  | zero =>
    intro attempt
    cases h : responses attempt <;>
      simp [makeRequestLoop, settleTrace, h]
  | succ r ih =>
    intro attempt
    cases h : responses attempt <;>
      simp [makeRequestLoop, settleTrace, h]
    have := ih (attempt + 1)
    omega

theorem makeRequestLoop_all429 (responses : ℕ → UpstreamResponse) :
    ∀ (remaining attempt : ℕ),
      (∀ j, j ≤ remaining → responses (attempt + j) = .rateLimited) →
      makeRequestLoop responses remaining attempt =
        { result := .error (.http 429)
          attempts := attempt + remaining + 1
          waits := (List.range remaining).map
            (fun i => RATE_LIMIT_RETRY_BASE_WAIT * (attempt + i + 1)) } := by
  intro remaining
  induction remaining with
  | zero =>
    intro attempt h
    have h0 : responses attempt = .rateLimited := by
      have := h 0 (by omega)
      simpa using this
    simp [makeRequestLoop, settleTrace, h0]
  | succ r ih =>
    intro attempt h
    have h0 : responses attempt = .rateLimited := by
      have := h 0 (by omega)
      simpa using this
    have hrec := ih (attempt + 1) (by
      intro j hj
      have := h (j + 1) (by omega)
      have e : attempt + (j + 1) = attempt + 1 + j := by omega
      rwa [e] at this)
    simp only [makeRequestLoop, h0, hrec]
    simp only [RequestTrace.mk.injEq, List.range_succ_eq_map, List.map_cons,
      List.map_map, Nat.add_zero, List.cons.injEq, Function.comp, true_and]
    refine ⟨by omega, ?_⟩
    refine List.map_congr_left ?_
    intro i _
    simp only [Function.comp_apply]
    congr 1
    omega

theorem makeRequestLoop_settled (responses : ℕ → UpstreamResponse) :
    ∀ (k remaining attempt : ℕ), k ≤ remaining →
      (∀ j, j < k → responses (attempt + j) = .rateLimited) →
      ∀ res, settleResponse (responses (attempt + k)) = some res →
      makeRequestLoop responses remaining attempt =
        { result := res
          attempts := attempt + k + 1
          waits := (List.range k).map
            (fun i => RATE_LIMIT_RETRY_BASE_WAIT * (attempt + i + 1)) } := by
  intro k
  induction k with
  | zero =>
    intro remaining attempt _ _ res hres
    simp only [Nat.add_zero] at hres
    cases remaining with
    | zero =>
      cases hr : responses attempt <;> rw [hr] at hres <;>
        simp [settleResponse] at hres <;>
        simp [makeRequestLoop, settleTrace, hr, ← hres]
    | succ r =>
      cases hr : responses attempt <;> rw [hr] at hres <;>
        simp [settleResponse] at hres <;>
        simp [makeRequestLoop, settleTrace, hr, ← hres]
  | succ k ih =>
    intro remaining attempt hk hpre res hres
    have h0 : responses attempt = .rateLimited := by
      have := hpre 0 (by omega)
      simpa using this
    cases remaining with
    | zero => omega
    | succ r =>
      have hrec := ih r (attempt + 1) (by omega)
        (by
          intro j hj
          have := hpre (j + 1) (by omega)
          have e : attempt + (j + 1) = attempt + 1 + j := by omega
          rwa [e] at this)
        res
        (by
          have e : attempt + (k + 1) = attempt + 1 + k := by omega
          rwa [e] at hres)
      simp only [makeRequestLoop, h0, hrec]
      simp only [RequestTrace.mk.injEq, List.range_succ_eq_map, List.map_cons,
        List.map_map, Nat.add_zero, List.cons.injEq, Function.comp, true_and]
      refine ⟨by omega, ?_⟩
      refine List.map_congr_left ?_
      intro i _
      simp only [Function.comp_apply]
      congr 1
      omega

/-- C4: the catalog request makes at most `retries + 1` attempts; on all-429
responses it propagates the HTTP 429 error after exactly `retries + 1`
attempts with linear backoff waits `base * (i + 1)`; a run of 429s followed
by a settling response (success, non-429 HTTP error, or network error) at
attempt `k ≤ retries` ends immediately at attempt `k + 1` with `k` backoff
waits — in particular a non-429 error is raised immediately with no further
attempts and a 429 followed by a success returns after one wait. -/
theorem C4_retry_policy (responses : ℕ → UpstreamResponse)
    (max_retries : ℕ) :
    (make_request responses max_retries).attempts ≤ max_retries + 1
    ∧ ((∀ j, j ≤ max_retries → responses j = .rateLimited) →
      make_request responses max_retries =
        { result := .error (.http 429)
          attempts := max_retries + 1
          waits := (List.range max_retries).map
            (fun i => RATE_LIMIT_RETRY_BASE_WAIT * (i + 1)) })
    ∧ (∀ k res, k ≤ max_retries →
      (∀ j, j < k → responses j = .rateLimited) →
      settleResponse (responses k) = some res →
      make_request responses max_retries =
        { result := res
          attempts := k + 1
          waits := (List.range k).map
            (fun i => RATE_LIMIT_RETRY_BASE_WAIT * (i + 1)) }) := by
  refine ⟨?_, ?_, ?_⟩
  · have := makeRequestLoop_attempts_le responses max_retries 0
    simpa [make_request] using this
  · intro hall
    have := makeRequestLoop_all429 responses max_retries 0 (by
      intro j hj
      simpa using hall j hj)
    simpa [make_request] using this
  · intro k res hk hpre hres
    have := makeRequestLoop_settled responses k max_retries 0 hk (by
      intro j hj
      simpa using hpre j hj) res (by simpa using hres)
    simpa [make_request] using this

/-- Response sequence for the C4 witness: a 429 then successes. -/
def c4Responses : ℕ → UpstreamResponse :=
  fun i => match i with
  | 0 => .rateLimited
  | _ => .ok 7

/-- Witness for C4: with the configured retry limit, a 429 followed by a 200
succeeds on the second attempt after exactly one 5-second backoff wait. -/
theorem C4_witness :
    make_request c4Responses MAX_RETRIES =
      { result := .ok 7, attempts := 2, waits := [5] } := by
  have h := (C4_retry_policy c4Responses MAX_RETRIES).2.2 1 (.ok 7)
    (by decide)
    (by
      intro j hj
      have hj0 : j = 0 := by omega
      subst hj0
      rfl)
    rfl
  rw [h]
  rfl

/-! ## Region recommendation: candidate fold
(`recommend_regions`, server.py lines 539-588) -/

/-- A per-region candidate (`region_data[region]`, server.py lines
570-579). -/
structure RegionCandidate where
  region : String
  location : String
  retail_price : ℚ
  sku_name : Option String
  product_name : Option String
  unit_of_measure : Option String
  meter_name : Option String
  pricing_type : String
  original_price : Option ℚ := none
  savings_vs_most_expensive : Option ℚ := none

/-- Pricing-tier classification (server.py lines 547-550): literal substring
tests on the SKU and meter names. -/
def pricingTypeOf (item : PriceItem) : String :=
  let sku_name_item := item.skuName.getD ""
  let meter_name := item.meterName.getD ""
  let is_spot := pyIn "Spot" sku_name_item || pyIn "Spot" meter_name
  let is_low_priority :=
    pyIn "Low Priority" sku_name_item || pyIn "Low Priority" meter_name
  if is_spot then "Spot"
  else if is_low_priority then "Low Priority"
  else "On-Demand"

/-- The Python dict `region_data` modelled as an association list with
unique keys. -/
abbrev RegionMap := List (String × RegionCandidate)

/-- Dict lookup `region_data.get(region)`. -/
def dictGet (m : RegionMap) (k : String) : Option RegionCandidate :=
  match m with
  | [] => none
  | (k2, v) :: rest => if k2 = k then some v else dictGet rest k

/-- Dict assignment `region_data[region] = ...` (update in place, append for
a new key). -/
def dictSet (m : RegionMap) (k : String) (v : RegionCandidate) : RegionMap :=
  match m with
  | [] => [(k, v)]
  | (k2, v2) :: rest =>
    if k2 = k then (k2, v) :: rest else (k2, v2) :: dictSet rest k v

/-- The `should_replace` rule (server.py lines 557-567): replace when there
is no existing candidate, or the new item is On-Demand and the existing one
is not, or the pricing types match and the new price is strictly lower. -/
def shouldReplaceCandidate (existing : Option RegionCandidate)
    (pricing_type : String) (price : ℚ) : Bool :=
  match existing with
  | none => true
  | some ex =>
    if pricing_type = "On-Demand" ∧ ex.pricing_type ≠ "On-Demand" then true
    else if pricing_type = ex.pricing_type ∧ price < ex.retail_price then true
    else false

/-- The candidate record built from an item (server.py lines 570-579);
`location` defaults to the region code (`item.get("location", region)`). -/
def mkRegionCandidate (item : PriceItem) (region : String) (price : ℚ) :
    RegionCandidate :=
  { region := region
    location := item.location.getD region
    retail_price := price
    sku_name := item.skuName
    product_name := item.productName
    unit_of_measure := item.unitOfMeasure
    meter_name := item.meterName
    pricing_type := pricingTypeOf item }

/-- One iteration of the region-dedup fold (server.py lines 540-579).
The guard `if region and price and price > 0` discards items with a missing
or empty region, a missing price, or a price that is zero or negative. -/
def processRegionItem (m : RegionMap) (item : PriceItem) : RegionMap :=
  match item.armRegionName with
  | none => m
  | some region =>
    let price := item.retailPrice.getD 0
    if region ≠ "" ∧ price ≠ 0 ∧ 0 < price then
      if shouldReplaceCandidate (dictGet m region) (pricingTypeOf item) price
      then dictSet m region (mkRegionCandidate item region price)
      else m
    else m

/-- The whole fold over the discovery items (server.py lines 539-579). -/
def buildRegionData (items : List PriceItem) : RegionMap :=
  items.foldl processRegionItem []

/-- The region keys of the map. -/
def mapKeys (m : RegionMap) : List String :=
  m.map (fun e => e.1)

theorem mapKeys_dictSet (m : RegionMap) (k : String) (v : RegionCandidate) :
    mapKeys (dictSet m k v)
      = if k ∈ mapKeys m then mapKeys m else mapKeys m ++ [k] := by
  induction m with
  | nil => simp [dictSet, mapKeys]
  | cons e rest ih =>
    obtain ⟨k2, v2⟩ := e
    by_cases h : k2 = k
    · subst h
      simp [dictSet, mapKeys]
    · have hne : ¬k = k2 := fun hh => h hh.symm
      have hstep : dictSet ((k2, v2) :: rest) k v
          = (k2, v2) :: dictSet rest k v := by
        simp [dictSet, h]
      rw [hstep,
        show mapKeys ((k2, v2) :: dictSet rest k v)
          = k2 :: mapKeys (dictSet rest k v) from rfl,
        show mapKeys ((k2, v2) :: rest) = k2 :: mapKeys rest from rfl, ih]
      by_cases hm : k ∈ mapKeys rest
      · rw [if_pos hm, if_pos (List.mem_cons_of_mem _ hm)]
      · rw [if_neg hm, if_neg (by simp [List.mem_cons, hne, hm])]
        rfl

theorem mapKeys_dictSet_nodup (m : RegionMap) (k : String)
    (v : RegionCandidate) (h : (mapKeys m).Nodup) :
    (mapKeys (dictSet m k v)).Nodup := by
  rw [mapKeys_dictSet]
  by_cases hm : k ∈ mapKeys m
  · simpa [hm] using h
  · simp only [hm, if_false]
    simpa [List.nodup_append] using ⟨h, hm⟩

theorem processRegionItem_nodup (m : RegionMap) (item : PriceItem)
    (h : (mapKeys m).Nodup) : (mapKeys (processRegionItem m item)).Nodup := by
  unfold processRegionItem
  cases ha : item.armRegionName with
  | none => simp only [ha]; exact h
  | some region =>
    simp only [ha]
    split
    · split
      · exact mapKeys_dictSet_nodup _ _ _ h
      · exact h
    · exact h

theorem buildRegionData_nodup (items : List PriceItem) :
    (mapKeys (buildRegionData items)).Nodup := by
  have hgen : ∀ (l : List PriceItem) (m : RegionMap), (mapKeys m).Nodup →
      (mapKeys (l.foldl processRegionItem m)).Nodup := by
    intro l
    induction l with
    | nil => intro m hm; simpa using hm
    | cons a rest ih =>
      intro m hm
      simp only [List.foldl_cons]
      exact ih (processRegionItem m a) (processRegionItem_nodup m a hm)
  exact hgen items [] (by simp [mapKeys])

/-- C1: at most one candidate survives per region code, and the fold rule
holds: items with nonpositive (or missing) price or missing region are
discarded; an existing candidate is replaced exactly when there is none, or
the new item is On-Demand and the existing one is not, or both tiers match
and the new price is strictly lower; in particular an On-Demand item always
supersedes a Spot/Low-Priority candidate and a Spot/Low-Priority item never
replaces an On-Demand candidate. -/
theorem C1_region_fold_rule :
    (∀ items : List PriceItem, (mapKeys (buildRegionData items)).Nodup)
    ∧ (∀ (m : RegionMap) (item : PriceItem),
        (item.retailPrice.getD 0 ≤ 0 ∨ item.armRegionName = none) →
        processRegionItem m item = m)
    ∧ (∀ (m : RegionMap) (item : PriceItem) (region : String),
        item.armRegionName = some region → region ≠ "" →
        0 < item.retailPrice.getD 0 →
        processRegionItem m item =
          (if shouldReplaceCandidate (dictGet m region) (pricingTypeOf item)
              (item.retailPrice.getD 0) = true
           then dictSet m region
             (mkRegionCandidate item region (item.retailPrice.getD 0))
           else m))
    ∧ (∀ (existing : Option RegionCandidate) (pt : String) (price : ℚ),
        shouldReplaceCandidate existing pt price = true ↔
          (existing = none
            ∨ ∃ ex, existing = some ex ∧
              ((pt = "On-Demand" ∧ ex.pricing_type ≠ "On-Demand")
                ∨ (pt = ex.pricing_type ∧ price < ex.retail_price))))
    ∧ (∀ (ex : RegionCandidate) (price : ℚ), ex.pricing_type ≠ "On-Demand" →
        shouldReplaceCandidate (some ex) "On-Demand" price = true)
    ∧ (∀ (ex : RegionCandidate) (pt : String) (price : ℚ),
        ex.pricing_type = "On-Demand" → pt ≠ "On-Demand" →
        shouldReplaceCandidate (some ex) pt price = false) := by
  refine ⟨buildRegionData_nodup, ?_, ?_, ?_, ?_, ?_⟩
  · intro m item hdisc
    unfold processRegionItem
    cases ha : item.armRegionName with
    | none => simp only [ha]
    | some region =>
      rcases hdisc with hle | hnone
      · simp only [ha]
        have hng : ¬(region ≠ "" ∧ item.retailPrice.getD 0 ≠ 0
            ∧ 0 < item.retailPrice.getD 0) := by
          intro hc
          exact absurd hc.2.2 (not_lt.mpr hle)
        simp [hng]
      · rw [hnone] at ha
        cases ha
  · intro m item region ha hre hpos
    unfold processRegionItem
    simp only [ha]
    rw [if_pos ⟨hre, ne_of_gt hpos, hpos⟩]
  · intro existing pt price
    cases existing with
    | none => simp [shouldReplaceCandidate]
    | some ex =>
      simp only [shouldReplaceCandidate]
      split_ifs with h1 h2
      · simp only [Option.some.injEq, true_iff]
        right
        exact ⟨ex, rfl, Or.inl h1⟩
      · simp only [Option.some.injEq, true_iff]
        right
        exact ⟨ex, rfl, Or.inr h2⟩
      · constructor
        · intro hfalse
          cases hfalse
        · intro hr
          rcases hr with hr | ⟨ex2, hex2, hc⟩
          · cases hr
          · have : ex2 = ex := by
              injection hex2 with h3
              exact h3.symm
            subst this
            rcases hc with hc | hc
            · exact absurd hc h1
            · exact absurd hc h2
  · intro ex price hne
    simp [shouldReplaceCandidate, hne]
  · intro ex pt price hex hpt
    have h2 : ¬(pt = ex.pricing_type ∧ price < ex.retail_price) := by
      intro hc
      exact hpt (hc.1.trans hex)
    simp [shouldReplaceCandidate, hpt, h2]

/-- A Spot-tier candidate used in the C1 witness. -/
def c1SpotCand : RegionCandidate :=
  { region := "eastus", location := "US East", retail_price := 1/10
    sku_name := some "D4s v3 Spot", product_name := none
    unit_of_measure := none, meter_name := none, pricing_type := "Spot" }

/-- Witness for C1: On-Demand at 1.00 beats a Spot candidate at 0.10, a Spot
item never replaces an On-Demand candidate, and an item with no price is
discarded. -/
theorem C1_witness :
    shouldReplaceCandidate (some c1SpotCand) "On-Demand" 1 = true
    ∧ shouldReplaceCandidate
        (some { c1SpotCand with pricing_type := "On-Demand" }) "Spot"
        (1 / 100) = false
    ∧ processRegionItem [] { armRegionName := some "eastus" } = [] := by
  refine ⟨?_, ?_, ?_⟩
  · exact C1_region_fold_rule.2.2.2.2.1 c1SpotCand 1 (by decide)
  · exact C1_region_fold_rule.2.2.2.2.2 _ "Spot" (1 / 100) rfl (by decide)
  · exact C1_region_fold_rule.2.1 [] { armRegionName := some "eastus" }
      (Or.inl (by norm_num))

/-! ## Region recommendation: ranking, savings and summary
(`recommend_regions`, server.py lines 592-650) -/

/-- The discount step of `recommend_regions` (server.py lines 594-600):
store the original price and replace the price by the rounded discounted
price, when a positive discount is requested. -/
def discountRecommendations (recs : List RegionCandidate) (dp : Option ℚ) :
    List RegionCandidate :=
  match dp with
  | some p =>
    if 0 < p then
      recs.map fun rec =>
        { rec with
          original_price := some rec.retail_price
          retail_price := pyRound 6 (rec.retail_price * (1 - p / 100)) }
    else recs
  | none => recs

/-- Python `max(...)` over a sequence; the code only applies it to a
nonempty list (guarded by `if recommendations:`, server.py line 606). -/
def pyMaxQ : List ℚ → ℚ
  | [] => 0
  | x :: xs => xs.foldl max x

/-- The sort step (server.py line 603): ascending by `retail_price`. Every
candidate carries the key, so the `float("inf")` fallback never applies;
Python `list.sort` is stable, as is `List.mergeSort`. -/
def sortRecommendations (recs : List RegionCandidate) :
    List RegionCandidate :=
  recs.mergeSort (fun a b => decide (a.retail_price ≤ b.retail_price))

/-- The per-candidate savings assignment (server.py lines 609-615). -/
def setSavings (max_price : ℚ) (rec : RegionCandidate) : RegionCandidate :=
  if 0 < max_price then
    { rec with
      savings_vs_most_expensive :=
        some (pyRound 2 ((max_price - rec.retail_price) / max_price * 100)) }
  else { rec with savings_vs_most_expensive := some 0 }

/-- The savings step over the full sorted list (server.py lines 605-615). -/
def addSavings (recs : List RegionCandidate) : List RegionCandidate :=
  match recs with
  | [] => []
  | _ => recs.map (setSavings (pyMaxQ (recs.map (fun r => r.retail_price))))

/-- Summary statistics (server.py lines 632-641), read from the first and
last entries of the full sorted list. -/
structure RecommendSummary where
  cheapest_region : String
  cheapest_location : String
  cheapest_price : ℚ
  most_expensive_region : String
  most_expensive_location : String
  most_expensive_price : ℚ
  max_savings_percentage : ℚ

/-- The post-processing result of `recommend_regions` (server.py lines
617-650). -/
structure RecommendPost where
  total_regions_found : ℕ
  showing_top : ℕ
  recommendations : List RegionCandidate
  summary : Option RecommendSummary

/-- Steps 3-6 of `recommend_regions` (server.py lines 592-650): apply the
requested discount, sort ascending by price, compute savings over the full
sorted list, then truncate to the top N; `total_regions_found`,
`showing_top` and the summary are computed from the full sorted list. -/
def finalizeRecommendations (recs0 : List RegionCandidate) (top_n : ℕ)
    (dp : Option ℚ) : RecommendPost :=
  let sorted := sortRecommendations (discountRecommendations recs0 dp)
  let withSavings := addSavings sorted
  { total_regions_found := withSavings.length
    showing_top := min top_n withSavings.length
    recommendations := withSavings.take top_n
    summary :=
      match withSavings with
      | [] => none
      | first :: rest =>
        some { cheapest_region := first.region
               cheapest_location := first.location
               cheapest_price := first.retail_price
               most_expensive_region :=
                 ((first :: rest).getLast (by simp)).region
               most_expensive_location :=
                 ((first :: rest).getLast (by simp)).location
               most_expensive_price :=
                 ((first :: rest).getLast (by simp)).retail_price
               max_savings_percentage :=
                 first.savings_vs_most_expensive.getD 0 } }

theorem setSavings_retail_price (mp : ℚ) (r : RegionCandidate) :
    (setSavings mp r).retail_price = r.retail_price := by
  unfold setSavings
  split_ifs <;> rfl

theorem sortRecommendations_sorted (recs : List RegionCandidate) :
    List.Pairwise
      (fun a b : RegionCandidate => a.retail_price ≤ b.retail_price)
      (sortRecommendations recs) := by
  have htrans : ∀ a b c : RegionCandidate,
      decide (a.retail_price ≤ b.retail_price) = true →
      decide (b.retail_price ≤ c.retail_price) = true →
      decide (a.retail_price ≤ c.retail_price) = true := by
    intro a b c hab hbc
    simp only [decide_eq_true_eq] at hab hbc ⊢
    exact le_trans hab hbc
  have htotal : ∀ a b : RegionCandidate,
      (decide (a.retail_price ≤ b.retail_price)
        || decide (b.retail_price ≤ a.retail_price)) = true := by
    intro a b
    rcases le_total a.retail_price b.retail_price with h | h <;> simp [h]
  have h := List.sorted_mergeSort htrans htotal recs
  refine h.imp ?_
  intro a b hab
  simpa using hab

theorem sortRecommendations_length (recs : List RegionCandidate) :
    (sortRecommendations recs).length = recs.length := by
  unfold sortRecommendations
  exact (List.mergeSort_perm recs _).length_eq

theorem discountRecommendations_length (recs : List RegionCandidate)
    (dp : Option ℚ) :
    (discountRecommendations recs dp).length = recs.length := by
  unfold discountRecommendations
  cases dp with
  | none => rfl
  | some p => by_cases h0 : 0 < p <;> simp [h0]

theorem addSavings_eq_map (recs : List RegionCandidate) (h : recs ≠ []) :
    addSavings recs
      = recs.map (setSavings (pyMaxQ (recs.map (fun r => r.retail_price)))) := by
  cases recs with
  | nil => exact absurd rfl h
  | cons a l => rfl

theorem addSavings_length (recs : List RegionCandidate) :
    (addSavings recs).length = recs.length := by
  cases recs with
  | nil => rfl
  | cons a l => simp [addSavings]

theorem addSavings_pairwise (recs : List RegionCandidate)
    (h : List.Pairwise
      (fun a b : RegionCandidate => a.retail_price ≤ b.retail_price) recs) :
    List.Pairwise
      (fun a b : RegionCandidate => a.retail_price ≤ b.retail_price)
      (addSavings recs) := by
  cases recs with
  | nil => simp [addSavings]
  | cons a l =>
    rw [addSavings_eq_map _ (by simp)]
    refine List.Pairwise.map _ ?_ h
    intro x y hxy
    simpa [setSavings_retail_price] using hxy

theorem addSavings_savings (recs : List RegionCandidate) (h : recs ≠ []) :
    ∀ r ∈ addSavings recs,
      r.savings_vs_most_expensive =
        some (if 0 < pyMaxQ (recs.map (fun x => x.retail_price))
          then pyRound 2 ((pyMaxQ (recs.map (fun x => x.retail_price))
            - r.retail_price)
            / pyMaxQ (recs.map (fun x => x.retail_price)) * 100)
          else 0) := by
  intro r hr
  rw [addSavings_eq_map recs h] at hr
  rcases List.mem_map.mp hr with ⟨r0, _, rfl⟩
  unfold setSavings
  split_ifs with hmp <;> rfl

/-- C2: for every nonempty candidate set, the full set is sorted ascending
by the (possibly discounted) retail price; the savings-vs-most-expensive
value is assigned to every candidate of the full sorted set using
`round((max - price) / max * 100, 2)` (0 when the maximum price is not
positive), before the top-N truncation; the returned list is the truncation
of that full set; and `total_regions_found` and the summary (cheapest and
most expensive entries, max savings) come from the full sorted set, not the
truncated slice. -/
theorem C2_ranking_savings_summary (recs0 : List RegionCandidate)
    (top_n : ℕ) (dp : Option ℚ) (hne : recs0 ≠ []) :
    List.Pairwise
      (fun a b : RegionCandidate => a.retail_price ≤ b.retail_price)
      (addSavings (sortRecommendations (discountRecommendations recs0 dp)))
    ∧ (∀ r ∈ addSavings (sortRecommendations
          (discountRecommendations recs0 dp)),
        r.savings_vs_most_expensive =
          some (if 0 < pyMaxQ ((sortRecommendations
                (discountRecommendations recs0 dp)).map
                (fun x => x.retail_price))
            then pyRound 2 ((pyMaxQ ((sortRecommendations
                (discountRecommendations recs0 dp)).map
                (fun x => x.retail_price)) - r.retail_price)
              / pyMaxQ ((sortRecommendations
                (discountRecommendations recs0 dp)).map
                (fun x => x.retail_price)) * 100)
            else 0))
    ∧ (finalizeRecommendations recs0 top_n dp).recommendations
        = (addSavings (sortRecommendations
            (discountRecommendations recs0 dp))).take top_n
    ∧ (finalizeRecommendations recs0 top_n dp).total_regions_found
        = recs0.length
    ∧ (∃ first lastc,
        (addSavings (sortRecommendations
          (discountRecommendations recs0 dp))).head? = some first
        ∧ (addSavings (sortRecommendations
            (discountRecommendations recs0 dp))).getLast? = some lastc
        ∧ (finalizeRecommendations recs0 top_n dp).summary = some
            { cheapest_region := first.region
              cheapest_location := first.location
              cheapest_price := first.retail_price
              most_expensive_region := lastc.region
              most_expensive_location := lastc.location
              most_expensive_price := lastc.retail_price
              max_savings_percentage :=
                first.savings_vs_most_expensive.getD 0 }) := by
  have hsne : sortRecommendations (discountRecommendations recs0 dp) ≠ [] := by
    intro h
    apply hne
    have hl := congrArg List.length h
    rw [sortRecommendations_length, discountRecommendations_length] at hl
    exact List.length_eq_zero.mp hl
  refine ⟨?_, ?_, rfl, ?_, ?_⟩
  · exact addSavings_pairwise _ (sortRecommendations_sorted _)
  · exact addSavings_savings _ hsne
  · show (addSavings (sortRecommendations
        (discountRecommendations recs0 dp))).length = recs0.length
    rw [addSavings_length, sortRecommendations_length,
      discountRecommendations_length]
  · cases hw : addSavings (sortRecommendations
        (discountRecommendations recs0 dp)) with
    | nil =>
      exfalso
      apply hsne
      have hl := congrArg List.length hw
      rw [addSavings_length] at hl
      exact List.length_eq_zero.mp hl
    | cons first rest =>
      refine ⟨first, (first :: rest).getLast (by simp), rfl, ?_, ?_⟩
      · exact List.getLast?_eq_getLast _ _
      · show (finalizeRecommendations recs0 top_n dp).summary = _
        unfold finalizeRecommendations
        simp only [hw]

/-- An On-Demand candidate with a given price, used in the C2 witness. -/
def c2Cand (pr : ℚ) : RegionCandidate :=
  { region := "r", location := "loc", retail_price := pr, sku_name := none
    product_name := none, unit_of_measure := none, meter_name := none
    pricing_type := "On-Demand" }

/-- Witness for C2: a three-candidate set is nonempty, its full processed
set is sorted ascending, and `total_regions_found` is 3 (the full set size),
independent of a top-N of 2. -/
theorem C2_witness :
    ([c2Cand 4, c2Cand 1, c2Cand 2] : List RegionCandidate) ≠ []
    ∧ List.Pairwise
      (fun a b : RegionCandidate => a.retail_price ≤ b.retail_price)
      (addSavings (sortRecommendations
        (discountRecommendations [c2Cand 4, c2Cand 1, c2Cand 2] none)))
    ∧ (finalizeRecommendations [c2Cand 4, c2Cand 1, c2Cand 2] 2
        none).total_regions_found = 3 := by
  have h := C2_ranking_savings_summary [c2Cand 4, c2Cand 1, c2Cand 2] 2 none
    (by simp)
  refine ⟨by simp, h.1, ?_⟩
  rw [h.2.2.2.1]
  rfl

/-! ## Region recommendation: variant discovery
(`recommend_regions`, server.py lines 508-535) -/

/-- The variant loop of `recommend_regions` (server.py lines 514-525): try
each search term in order and stop at the first one whose search returns
items. `searchFor` abstracts the per-term search (`search_azure_prices`
with the service filter, validation disabled, limit 500). -/
def tryVariants (searchFor : String → List PriceItem) :
    List String → Option (String × List PriceItem)
  | [] => none
  | t :: rest =>
    if (searchFor t).isEmpty then tryVariants searchFor rest
    else some (t, searchFor t)

/-- Outcome of the discovery stage of `recommend_regions`: either the
structured NotFound result (server.py lines 527-535) or the first variant
returning items. -/
inductive RecommendDiscovery where
  | notFound (error_msg : String) (service_name : String) (sku_name : String)
      (sku_input : String) (search_terms_tried : List String)
      (recommendations : List RegionCandidate) : RecommendDiscovery
  | found (term : String) (items : List PriceItem) : RecommendDiscovery

/-- The discovery stage of `recommend_regions` (server.py lines 508-535):
normalize the SKU, try the variants sequentially, and return a structured
NotFound value (error message, display name, attempted terms, empty
recommendation list) when every variant comes back empty — no exception is
raised. -/
def recommend_regions_discovery (searchFor : String → List PriceItem)
    (service_name sku_input : String) : RecommendDiscovery :=
  match tryVariants searchFor (normalize_sku_name sku_input).1 with
  | some (t, items) => .found t items
  | none =>
    .notFound
      ("No pricing found for " ++ (normalize_sku_name sku_input).2
        ++ " in service " ++ service_name)
      service_name (normalize_sku_name sku_input).2 sku_input
      (normalize_sku_name sku_input).1 []

theorem tryVariants_none_iff (searchFor : String → List PriceItem)
    (terms : List String) :
    tryVariants searchFor terms = none ↔ ∀ t ∈ terms, searchFor t = [] := by
  induction terms with
  | nil => simp [tryVariants]
  | cons t rest ih =>
    unfold tryVariants
    by_cases h : (searchFor t).isEmpty = true
    · have ht : searchFor t = [] := by simpa [List.isEmpty_iff] using h
      rw [if_pos h]
      simp [List.mem_cons, ht, ih]
    · have ht : searchFor t ≠ [] := by
        intro hh
        exact h (by simp [hh])
      rw [if_neg h]
      simp only [List.mem_cons]
      constructor
      · intro hh; cases hh
      · intro hall
        exact absurd (hall t (Or.inl rfl)) ht

theorem tryVariants_found (searchFor : String → List PriceItem)
    (terms : List String) :
    ∀ (t : String) (items : List PriceItem),
      tryVariants searchFor terms = some (t, items) →
      items = searchFor t ∧ items ≠ []
      ∧ ∃ i, terms.get? i = some t
        ∧ ∀ j < i, ∃ u, terms.get? j = some u ∧ searchFor u = [] := by
  induction terms with
  | nil => intro t items h; cases h
  | cons t0 rest ih =>
    intro t items h
    unfold tryVariants at h
    by_cases he : (searchFor t0).isEmpty = true
    · rw [if_pos he] at h
      have ht0 : searchFor t0 = [] := by simpa [List.isEmpty_iff] using he
      obtain ⟨h1, h2, i, hi, hpre⟩ := ih t items h
      refine ⟨h1, h2, i + 1, by simpa using hi, ?_⟩
      intro j hj
      cases j with
      | zero => exact ⟨t0, rfl, ht0⟩
      | succ k =>
        have := hpre k (by omega)
        simpa using this
    · rw [if_neg he] at h
      injection h with hpair
      injection hpair with h1 h2
      subst h1
      subst h2
      refine ⟨rfl, ?_, 0, rfl, ?_⟩
      · intro hh
        exact he (by simp [hh])
      · intro j hj
        omega

/-- C7: in `recommend_regions` the search-term variants are tried strictly
sequentially, stopping at the first variant whose search returns at least
one item (all earlier variants returned nothing); if every variant returns
no items, the operation returns a structured NotFound result carrying the
display SKU name and the full list of attempted search terms with an empty
recommendations list, rather than raising a fault. -/
theorem C7_variant_iteration (searchFor : String → List PriceItem)
    (service_name sku_input : String) :
    (∀ t items,
      recommend_regions_discovery searchFor service_name sku_input
        = .found t items →
      items = searchFor t ∧ items ≠ []
      ∧ ∃ i, (normalize_sku_name sku_input).1.get? i = some t
        ∧ ∀ j < i, ∃ u, (normalize_sku_name sku_input).1.get? j = some u
            ∧ searchFor u = [])
    ∧ ((∀ t ∈ (normalize_sku_name sku_input).1, searchFor t = []) →
      recommend_regions_discovery searchFor service_name sku_input
        = .notFound
          ("No pricing found for " ++ (normalize_sku_name sku_input).2
            ++ " in service " ++ service_name)
          service_name (normalize_sku_name sku_input).2 sku_input
          (normalize_sku_name sku_input).1 []) := by
  constructor
  · intro t items hfound
    unfold recommend_regions_discovery at hfound
    cases htv : tryVariants searchFor (normalize_sku_name sku_input).1 with
    | none =>
      rw [htv] at hfound
      cases hfound
    | some pr =>
      obtain ⟨t2, items2⟩ := pr
      rw [htv] at hfound
      injection hfound with h1 h2
      subst h1
      subst h2
      exact tryVariants_found searchFor _ _ _ htv
  · intro hall
    unfold recommend_regions_discovery
    rw [(tryVariants_none_iff searchFor _).mpr hall]

/-- The single catalog item of the C7 witness. -/
def c7Item : PriceItem :=
  { skuName := some "D4s v5", armRegionName := some "eastus" }

/-- The search oracle of the C7 witness: only the space-joined variant
returns an item. -/
def c7Search : String → List PriceItem :=
  fun t => if t = "D4s v5" then [c7Item] else []

/-- Witness for C7: for `Standard_D4s_v5` the underscore variant is tried
first and returns nothing; the discovery stops at the second variant
`D4s v5` with its item. -/
theorem C7_witness :
    recommend_regions_discovery c7Search "Virtual Machines" "Standard_D4s_v5"
      = .found "D4s v5" [c7Item]
    ∧ ([c7Item] : List PriceItem) = c7Search "D4s v5"
    ∧ ∃ i, (normalize_sku_name "Standard_D4s_v5").1.get? i = some "D4s v5"
        ∧ ∀ j < i, ∃ u, (normalize_sku_name "Standard_D4s_v5").1.get? j
            = some u ∧ c7Search u = [] := by
  have hf : recommend_regions_discovery c7Search "Virtual Machines"
      "Standard_D4s_v5" = .found "D4s v5" [c7Item] := by rfl
  have h := (C7_variant_iteration c7Search "Virtual Machines"
    "Standard_D4s_v5").1 "D4s v5" [c7Item] hf
  exact ⟨hf, h.1, h.2.2⟩

/-! ## Service-name resolver: broad scan
(`_find_similar_services`, server.py lines 903-935) -/

theorem dedupFirstAux_mem (a : String) (l : List String) :
    ∀ seen : List String,
      a ∈ dedupFirstAux seen l ↔ (a ∈ l ∧ a ∉ seen) := by
  induction l with
  | nil =>
    intro seen
    simp [dedupFirstAux]
  | cons x xs ih =>
    intro seen
    unfold dedupFirstAux
    by_cases hc : seen.contains x = true
    · rw [if_pos hc]
      have hx : x ∈ seen := List.mem_of_elem_eq_true hc
      rw [ih seen]
      constructor
      · rintro ⟨hmem, hns⟩
        exact ⟨List.mem_cons_of_mem _ hmem, hns⟩
      · rintro ⟨hmem, hns⟩
        rcases List.mem_cons.mp hmem with rfl | hmem2
        · exact absurd hx hns
        · exact ⟨hmem2, hns⟩
    · rw [if_neg hc]
      have hx : x ∉ seen := fun hm => hc (List.elem_eq_true_of_mem hm)
      constructor
      · intro hmem
        rcases List.mem_cons.mp hmem with rfl | hmem2
        · exact ⟨List.mem_cons_self a xs, hx⟩
        · have h2 := (ih (x :: seen)).mp hmem2
          refine ⟨List.mem_cons_of_mem _ h2.1, ?_⟩
          intro hs
          exact h2.2 (List.mem_cons_of_mem _ hs)
      · rintro ⟨hmem, hns⟩
        rcases List.mem_cons.mp hmem with rfl | hmem2
        · exact List.mem_cons_self a _
        · by_cases hax : a = x
          · subst hax
            exact List.mem_cons_self a _
          · refine List.mem_cons_of_mem _ ((ih (x :: seen)).mpr
              ⟨hmem2, ?_⟩)
            intro hs
            rcases List.mem_cons.mp hs with h1 | h2
            · exact hax h1
            · exact hns h2

theorem dedupFirstAux_nodup (l : List String) :
    ∀ seen : List String, (dedupFirstAux seen l).Nodup := by
  induction l with
  | nil =>
    intro seen
    simp [dedupFirstAux]
  | cons x xs ih =>
    intro seen
    unfold dedupFirstAux
    by_cases hc : seen.contains x = true
    · rw [if_pos hc]
      exact ih seen
    · rw [if_neg hc]
      refine List.Nodup.cons ?_ (ih (x :: seen))
      intro hmem
      have h2 := (dedupFirstAux_mem x xs (x :: seen)).mp hmem
      exact h2.2 (List.mem_cons_self x seen)

/-- The broad-scan match condition (server.py lines 915-919); `search_term`
is the already-lowercased hint. -/
def broadScanMatch (search_term service product : String) : Bool :=
  pyIn search_term (pyLower service) || pyIn search_term (pyLower product)
    || (pySplitWs search_term).any (fun word => pyIn word (pyLower service))

/-- The `matching_services` collection (server.py lines 909-920): the
service names of items passing the match condition. Python accumulates them
in a `set`; the model uses the deduplicated first-seen order, fixing one
iteration order of that set (the properties proved below do not depend on
the order). -/
def matchingServices (broadItems : List PriceItem) (search_term : String) :
    List String :=
  dedupFirst (broadItems.filterMap fun item =>
    if broadScanMatch search_term (item.serviceName.getD "")
        (item.productName.getD "") then some (item.serviceName.getD "")
    else none)

/-- One broad-scan suggestion entry (server.py lines 929-935). -/
structure ServiceSuggestion where
  service_name : String
  match_reason : String
  sample_items : List PriceItem

/-- The broad-scan suggestion stage (server.py lines 922-935): take at most
5 distinct matched service names and re-probe each with a limit-3 search
(`probe s 3` stands for `search_azure_prices(service_name=s, limit=3)`),
keeping the services whose probe returns items, with 2 sample items. -/
def broadScanSuggestions (broadItems : List PriceItem) (search_term : String)
    (probe : String → ℕ → List PriceItem) : List ServiceSuggestion :=
  ((matchingServices broadItems search_term).take 5).filterMap fun service =>
    if (probe service 3).isEmpty then none
    else some { service_name := service
                match_reason := "Contains \x27" ++ search_term ++ "\x27"
                sample_items := (probe service 3).take 2 }

/-- Modelled from the claim wording of C8 (the claimed iff-condition): the
hint is contained in the service or product name, or the service or product
name is contained in the hint (containment in either direction,
case-insensitive), or the service name shares a whitespace token with the
hint. -/
def claimBroadMatch (hint service product : String) : Bool :=
  pyIn (pyLower hint) (pyLower service)
    || pyIn (pyLower hint) (pyLower product)
    || pyIn (pyLower service) (pyLower hint)
    || pyIn (pyLower product) (pyLower hint)
    || (pySplitWs (pyLower hint)).any
        (fun w => (pySplitWs (pyLower service)).contains w)

/-- C8: the claim states an iff with containment in either direction.
COUNTEREXAMPLE: for the hint `ab cd` and an item with service name `b c`
(product `q`), the claim's condition holds — the service name is a
substring of the hint — but the code's condition does not (the code never
tests reverse containment), so the item yields no suggestion candidate. -/
theorem C8_counterexample :
    claimBroadMatch "ab cd" "b c" "q" = true
    ∧ broadScanMatch (pyLower "ab cd") "b c" "q" = false
    ∧ matchingServices
        [{ serviceName := some "b c", productName := some "q" }]
        (pyLower "ab cd") = [] := by
  refine ⟨by decide, by decide, by decide⟩

/-- C8 (amended): in the broad-scan strategy an item's service is collected
as a suggestion candidate iff the lowercased hint is a substring of the
lowercased service name or of the lowercased product name, or some
whitespace token of the hint is a substring of the lowercased service name
— reverse containment of the service/product name in the hint is not
tested; the collected service names are distinct, at most 5 are re-probed,
and every surfaced suggestion comes from a collected service whose limit-3
re-probe returned items, carrying 2 sample items. -/
theorem C8_broad_scan (broadItems : List PriceItem) (search_term : String)
    (probe : String → ℕ → List PriceItem) :
    (∀ s, s ∈ matchingServices broadItems search_term ↔
      ∃ item, item ∈ broadItems ∧ item.serviceName.getD "" = s
        ∧ broadScanMatch search_term (item.serviceName.getD "")
            (item.productName.getD "") = true)
    ∧ (matchingServices broadItems search_term).Nodup
    ∧ (broadScanSuggestions broadItems search_term probe).length ≤ 5
    ∧ (∀ sug ∈ broadScanSuggestions broadItems search_term probe,
        sug.service_name ∈ matchingServices broadItems search_term
        ∧ probe sug.service_name 3 ≠ []
        ∧ sug.sample_items = (probe sug.service_name 3).take 2) := by
  refine ⟨?_, ?_, ?_, ?_⟩
  · intro s
    unfold matchingServices dedupFirst
    rw [dedupFirstAux_mem]
    rw [and_iff_left (List.not_mem_nil s), List.mem_filterMap]
    constructor
    · rintro ⟨item, hmem, hf⟩
      by_cases hbm : broadScanMatch search_term (item.serviceName.getD "")
          (item.productName.getD "") = true
      · rw [if_pos hbm] at hf
        injection hf with hf2
        exact ⟨item, hmem, hf2, hbm⟩
      · rw [if_neg hbm] at hf
        cases hf
    · rintro ⟨item, hmem, hs, hbm⟩
      exact ⟨item, hmem, by rw [if_pos hbm, hs]⟩
  · exact dedupFirstAux_nodup _ []
  · calc (broadScanSuggestions broadItems search_term probe).length
        ≤ ((matchingServices broadItems search_term).take 5).length :=
          List.length_filterMap_le _ _
      _ ≤ 5 := List.length_take_le 5 _
  · intro sug hsug
    unfold broadScanSuggestions at hsug
    rcases List.mem_filterMap.mp hsug with ⟨service, hmem, hf⟩
    by_cases hp : (probe service 3).isEmpty = true
    · rw [if_pos hp] at hf
      cases hf
    · rw [if_neg hp] at hf
      injection hf with hf2
      subst hf2
      refine ⟨List.mem_of_mem_take hmem, ?_, rfl⟩
      intro hh
      exact hp (by simp [hh])

/-- Witness for C8: with the hint `vm` and one item whose service name is
`vm service`, that service is collected as a match, and the collected list
has no duplicates. -/
theorem C8_witness :
    "vm service" ∈ matchingServices
      [{ serviceName := some "vm service" }] "vm"
    ∧ (matchingServices [{ serviceName := some "vm service" }] "vm").Nodup := by
  have h := C8_broad_scan [{ serviceName := some "vm service" }] "vm"
    (fun _ _ => [])
  refine ⟨?_, h.2.1⟩
  refine (h.1 "vm service").mpr
    ⟨{ serviceName := some "vm service" }, ?_, ?_, ?_⟩
  · simp
  · rfl
  · decide
